import Mathlib

/-
Verification of the flip-test-be reconciliation core.

Shallow embedding of the Go sources:
  internal/domain/models.go, internal/storage/memory_store.go,
  internal/eventbus/bus.go, internal/eventbus/reconciliation_consumer.go,
  internal/service (CSV processor), pkg/retry/retry.go.

Modelling conventions:
  Go maps are association lists (`mapGet` / `mapSet`); the processed-event
  map[string]bool is a `Finset String` (assigning true to a present key is
  a no-op, exactly as for a Go map); wall-clock times (CreatedAt) are
  dropped and the presence of CompletedAt is a Bool; durations are Nat
  nanoseconds; goroutine scheduling and the select tie-break are explicit
  oracle parameters.
-/

deriving instance DecidableEq for Except

namespace FlipTest

/-! ## Go map model: association lists -/

def mapGet {κ α : Type} [DecidableEq κ] : List (κ × α) → κ → Option α
  | [], _ => none
  | (k', v) :: rest, k => if k' = k then some v else mapGet rest k

def mapSet {κ α : Type} [DecidableEq κ] : List (κ × α) → κ → α → List (κ × α)
  | [], k, v => [(k, v)]
  | (k', v') :: rest, k, v =>
    if k' = k then (k, v) :: rest else (k', v') :: mapSet rest k v

theorem mapGet_mapSet_self {κ α : Type} [DecidableEq κ]
    (m : List (κ × α)) (k : κ) (v : α) : mapGet (mapSet m k v) k = some v := by
  induction m with
  | nil => simp [mapGet, mapSet]
  | cons p rest ih =>
    obtain ⟨k', v'⟩ := p
    by_cases h : k' = k
    · simp [mapSet, h, mapGet]
    · simp [mapSet, h, mapGet, ih]

theorem mapGet_mapSet_ne {κ α : Type} [DecidableEq κ]
    (m : List (κ × α)) (k k' : κ) (v : α) (h : k' ≠ k) :
    mapGet (mapSet m k v) k' = mapGet m k' := by
  have hk : k ≠ k' := fun hh => h hh.symm
  induction m with
  | nil =>
    simp only [mapSet, mapGet]
    rw [if_neg hk]
  | cons p rest ih =>
    obtain ⟨k₀, v₀⟩ := p
    by_cases h0 : k₀ = k
    · subst h0
      simp only [mapSet, if_pos rfl, mapGet]
      rw [if_neg hk, if_neg hk]
    · simp only [mapSet, if_neg h0, mapGet]
      by_cases h1 : k₀ = k'
      · rw [if_pos h1, if_pos h1]
      · rw [if_neg h1, if_neg h1, ih]

/-! ## Domain model (internal/domain/models.go) -/

inductive TransactionType
  | credit
  | debit
deriving DecidableEq, Repr

inductive TransactionStatus
  | success
  | failed
  | pending
deriving DecidableEq, Repr

structure Transaction where
  timestamp : Int
  counterparty : String
  type : TransactionType
  amount : Int
  status : TransactionStatus
  description : String
deriving DecidableEq, Repr

inductive UploadStatus
  | processing
  | completed
  | failed
deriving DecidableEq, Repr

structure Upload where
  id : String
  status : UploadStatus
  processedRows : Nat
  totalRows : Nat
  /-- Whether CompletedAt has been set (the time value itself is dropped). -/
  completedAtSet : Bool
deriving DecidableEq, Repr

structure IssueTransaction where
  transaction : Transaction
  lineNumber : Nat
deriving DecidableEq, Repr

inductive DomainError
  | uploadNotFound
deriving DecidableEq, Repr

/-! ## Ledger store (internal/storage/memory_store.go) -/

structure TransactionWithLine where
  transaction : Transaction
  lineNumber : Nat
deriving DecidableEq, Repr

structure MemoryStore where
  uploads : List (String × Upload)
  transactions : List (String × List TransactionWithLine)
  processedEvents : Finset String
deriving DecidableEq

def newMemoryStore : MemoryStore := ⟨[], [], ∅⟩

def MemoryStore.createUpload (s : MemoryStore) (uploadID : String) :
    Except DomainError MemoryStore :=
  let u : Upload :=
    { id := uploadID, status := .processing, processedRows := 0,
      totalRows := 0, completedAtSet := false }
  .ok { s with
        uploads := mapSet s.uploads uploadID u,
        transactions := mapSet s.transactions uploadID [] }

def MemoryStore.getUpload (s : MemoryStore) (uploadID : String) :
    Except DomainError Upload :=
  match mapGet s.uploads uploadID with
  | none => .error .uploadNotFound
  | some u => .ok u

def MemoryStore.updateUploadStatus (s : MemoryStore) (uploadID : String)
    (status : UploadStatus) : Except DomainError MemoryStore :=
  match mapGet s.uploads uploadID with
  | none => .error .uploadNotFound
  | some u =>
    let u' :=
      if status = .completed ∨ status = .failed then
        { u with status := status, completedAtSet := true }
      else
        { u with status := status }
    .ok { s with uploads := mapSet s.uploads uploadID u' }

def MemoryStore.incrementProcessedRows (s : MemoryStore) (uploadID : String) :
    Except DomainError MemoryStore :=
  match mapGet s.uploads uploadID with
  | none => .error .uploadNotFound
  | some u =>
    let u' := { u with processedRows := u.processedRows + 1 }
    .ok { s with uploads := mapSet s.uploads uploadID u' }

def MemoryStore.addTransaction (s : MemoryStore) (uploadID : String)
    (tx : Transaction) (lineNumber : Nat) : Except DomainError MemoryStore :=
  match mapGet s.uploads uploadID with
  | none => .error .uploadNotFound
  | some _ =>
    let txs' := ((mapGet s.transactions uploadID).getD []) ++ [⟨tx, lineNumber⟩]
    .ok { s with transactions := mapSet s.transactions uploadID txs' }

/-- The body of the GetBalance accumulation loop. -/
def balanceStep (balance : Int) (twl : TransactionWithLine) : Int :=
  if twl.transaction.status = .success then
    if twl.transaction.type = .credit then
      balance + twl.transaction.amount
    else if twl.transaction.type = .debit then
      balance - twl.transaction.amount
    else
      balance
  else
    balance

def MemoryStore.getBalance (s : MemoryStore) (uploadID : String) :
    Except DomainError Int :=
  match mapGet s.uploads uploadID with
  | none => .error .uploadNotFound
  | some _ =>
    match mapGet s.transactions uploadID with
    | none => .ok 0
    | some txs =>
      .ok (txs.foldl balanceStep 0)

def clampPage (page : Int) : Int := if page < 1 then 1 else page

def clampPerPage (perPage : Int) : Int := if perPage < 1 then 10 else perPage

def issueFilterStep (statusFilter : Option TransactionStatus)
    (twl : TransactionWithLine) : Option IssueTransaction :=
  match statusFilter with
  | some st =>
    if twl.transaction.status = st then
      if twl.transaction.status = .failed ∨ twl.transaction.status = .pending then
        some ⟨twl.transaction, twl.lineNumber⟩
      else
        none
    else
      none
  | none =>
    if twl.transaction.status = .failed ∨ twl.transaction.status = .pending then
      some ⟨twl.transaction, twl.lineNumber⟩
    else
      none

def MemoryStore.getIssues (s : MemoryStore) (uploadID : String)
    (page perPage : Int) (statusFilter : Option TransactionStatus) :
    Except DomainError (List IssueTransaction × Nat) :=
  match mapGet s.uploads uploadID with
  | none => .error .uploadNotFound
  | some _ =>
    match mapGet s.transactions uploadID with
    | none => .ok ([], 0)
    | some txs =>
      let filtered := txs.filterMap (issueFilterStep statusFilter)
      let total := filtered.length
      let p := clampPage page
      let k := clampPerPage perPage
      let start := (p - 1) * k
      let endIdx := start + k
      if (total : Int) ≤ start then
        .ok ([], total)
      else
        let endIdx := if (total : Int) < endIdx then (total : Int) else endIdx
        .ok ((filtered.drop start.toNat).take (endIdx - start).toNat, total)

def MemoryStore.isEventProcessed (s : MemoryStore) (eventID : String) :
    Except DomainError Bool :=
  .ok (eventID ∈ s.processedEvents)

def MemoryStore.markEventProcessed (s : MemoryStore) (eventID : String) :
    Except DomainError MemoryStore :=
  .ok { s with processedEvents := insert eventID s.processedEvents }

/-! ## Events and event bus (internal/eventbus/event.go, bus.go) -/

inductive EventType
  | reconciliation
deriving DecidableEq, Repr

structure ReconciliationEvent where
  uploadID : String
  transaction : Transaction
  lineNumber : Nat
deriving DecidableEq, Repr

/-- The untyped Go payload (interface value), narrowed at consume time. -/
inductive EventPayload
  | reconciliation (e : ReconciliationEvent)
  | other
deriving DecidableEq, Repr

structure Event where
  id : String
  type : EventType
  payload : EventPayload
deriving DecidableEq, Repr

structure Channel where
  cap : Nat
  buf : List Event
deriving DecidableEq, Repr

structure EventBusState where
  channels : List (EventType × Channel)
deriving DecidableEq, Repr

inductive PublishResult
  | ok
  | cancelled
deriving DecidableEq, Repr

def enqueueEvent (bus : EventBusState) (event : Event) (ch : Channel) :
    EventBusState :=
  ⟨mapSet bus.channels event.type ⟨ch.cap, ch.buf ++ [event]⟩⟩

/--
eventBus.Publish. `ctxCancelled` is whether the context is already
cancelled at the call; `tieBreak` is the pseudo-random choice the Go
select statement makes when both the send and the Done case are ready
(true = take the send case).
-/
def EventBusState.publish (bus : EventBusState) (ctxCancelled : Bool)
    (tieBreak : Bool) (event : Event) : PublishResult × EventBusState :=
  match mapGet bus.channels event.type with
  | none => (.ok, bus)
  | some ch =>
    if ch.buf.length < ch.cap then
      if ctxCancelled then
        if tieBreak then (.ok, enqueueEvent bus event ch)
        else (.cancelled, bus)
      else (.ok, enqueueEvent bus event ch)
    else if ctxCancelled then (.cancelled, bus)
    else (.ok, bus)

/-! ## Reconciliation consumer (internal/eventbus/reconciliation_consumer.go) -/

inductive ConsumeError
  | invalidPayload
  | storeError (e : DomainError)
deriving DecidableEq, Repr

def consume (s : MemoryStore) (event : Event) :
    Except ConsumeError MemoryStore :=
  match s.isEventProcessed event.id with
  | .error e => .error (.storeError e)
  | .ok true => .ok s
  | .ok false =>
    match event.payload with
    | .other => .error .invalidPayload
    | .reconciliation payload =>
      match s.addTransaction payload.uploadID payload.transaction
          payload.lineNumber with
      | .error e => .error (.storeError e)
      | .ok s1 =>
        match s1.markEventProcessed event.id with
        | .error e => .error (.storeError e)
        | .ok s2 =>
          match s2.incrementProcessedRows payload.uploadID with
          | .error _ => .ok s2
          | .ok s3 => .ok s3

/-- Sequentially consume the same event `n` times, stopping on an error. -/
def consumeIter : Nat → MemoryStore → Event → Except ConsumeError MemoryStore
  | 0, s, _ => .ok s
  | n + 1, s, e =>
    match consume s e with
    | .error err => .error err
    | .ok s' => consumeIter n s' e

/-! ## Retry runner (pkg/retry/retry.go).

Durations are Nat nanoseconds. `op i` is the result of the i-th call of
the operation (`none` = success); `cancelFires i` is whether the context
fires during the backoff sleep after attempt i. -/

structure RetryConfig where
  maxAttempts : Nat
  baseDelay : Nat
  maxDelay : Nat
deriving DecidableEq, Repr

def defaultRetryConfig : RetryConfig :=
  { maxAttempts := 5, baseDelay := 1000000000, maxDelay := 30000000000 }

def calculateBackoff (attempt : Nat) (baseDelay maxDelay : Nat) : Nat :=
  let delay := baseDelay * 2 ^ attempt
  if maxDelay < delay then maxDelay else delay

inductive DoResult (ε : Type)
  | ok
  | maxRetriesExceeded (cause : ε)
  | cancelled
  | plainErr (e : ε)
deriving DecidableEq, Repr

/--
The retry loop of retry.Do starting at `attempt` with `remaining`
iterations left; also returns the list of completed backoff sleeps.
The `remaining = 0` fall-through mirrors the final `return lastErr`
after the loop (reachable only when maxAttempts is 0).
-/
def retryGo {ε : Type} (op : Nat → Option ε) (cancelFires : Nat → Bool)
    (baseDelay maxDelay : Nat) :
    Nat → Nat → Option ε → List Nat → DoResult ε × List Nat
  | _, 0, lastErr, slept =>
    (match lastErr with
     | none => .ok
     | some e => .plainErr e, slept)
  | attempt, r + 1, _, slept =>
    match op attempt with
    | none => (.ok, slept)
    | some e =>
      if r = 0 then
        (.maxRetriesExceeded e, slept)
      else
        let delay := calculateBackoff attempt baseDelay maxDelay
        if cancelFires attempt then
          (.cancelled, slept)
        else
          retryGo op cancelFires baseDelay maxDelay (attempt + 1) r (some e)
            (slept ++ [delay])

def retryDo {ε : Type} (op : Nat → Option ε) (cancelFires : Nat → Bool)
    (cfg : RetryConfig) : DoResult ε × List Nat :=
  retryGo op cancelFires cfg.baseDelay cfg.maxDelay 0 cfg.maxAttempts none []

/-! ## CSV processor (internal/service, csv_processor). -/

/-- Go unicode whitespace on the ASCII range (strings.TrimSpace). -/
def isSpaceGo (c : Char) : Bool :=
  c = ' ' || c = '\t' || c = '\n' || c = '\r' || c.toNat = 11 || c.toNat = 12

def goTrim (s : String) : String :=
  ⟨(((s.data.dropWhile isSpaceGo).reverse.dropWhile isSpaceGo).reverse)⟩

def goToUpper (s : String) : String :=
  ⟨s.data.map Char.toUpper⟩

/-- Digits of a base-10 numeral; `none` when a non-digit occurs. -/
def decDigits : List Char → Option Nat → Option Nat
  | [], acc => acc
  | c :: cs, acc =>
    match acc with
    | none => none
    | some n =>
      if c.isDigit then decDigits cs (some (n * 10 + (c.toNat - 48)))
      else none

/-- The digits-and-range part of strconv.ParseInt after the sign. -/
def parseInt64Digits (neg : Bool) (ds : List Char) : Option Int :=
  match ds with
  | [] => none
  | _ =>
    match decDigits ds (some 0) with
    | none => none
    | some n =>
      let v : Int := if neg then -(n : Int) else (n : Int)
      if v < -(2 ^ 63) ∨ (2 ^ 63 : Int) ≤ v then none else some v

/--
strconv.ParseInt(s, 10, 64): optional sign, decimal digits, and a
64-bit range check (out of range is an error, which the caller rejects).
-/
def parseInt64 (s : String) : Option Int :=
  match s.data with
  | [] => none
  | c :: cs =>
    if c = '-' then parseInt64Digits true cs
    else if c = '+' then parseInt64Digits false cs
    else parseInt64Digits false (c :: cs)

def parseTransaction (record : List String) (_lineNumber : Nat) :
    Except String Transaction :=
  match record with
  | [f0, f1, f2, f3, f4, f5] =>
    match parseInt64 (goTrim f0) with
    | none => .error "invalid timestamp"
    | some timestamp =>
      match parseInt64 (goTrim f3) with
      | none => .error "invalid amount"
      | some amount =>
        let txType := goToUpper (goTrim f2)
        if txType = "CREDIT" ∨ txType = "DEBIT" then
          let status := goToUpper (goTrim f4)
          if status = "SUCCESS" ∨ status = "FAILED" ∨ status = "PENDING" then
            .ok { timestamp := timestamp,
                  counterparty := goTrim f1,
                  type := if txType = "CREDIT" then .credit else .debit,
                  amount := amount,
                  status :=
                    if status = "SUCCESS" then .success
                    else if status = "FAILED" then .failed
                    else .pending,
                  description := goTrim f5 }
          else .error "invalid status"
        else .error "invalid transaction type"
  | _ => .error "invalid record format"

/-- One result of csvReader.Read: a record, or a non-EOF read error. -/
inductive ReadResult
  | record (fields : List String)
  | readError
deriving DecidableEq, Repr

structure LoopState where
  bus : EventBusState
  lineNumber : Nat
  successCount : Nat
  errorCount : Nat
deriving DecidableEq, Repr

/--
The read loop of CSVProcessor.ProcessStream over the stream of read
results. `tie` supplies the publish select tie-break, indexed by the
line number being published.
-/
def processLoop (cancelled : Bool) (tie : Nat → Bool) (uploadID : String) :
    List ReadResult → LoopState → LoopState
  | [], st => st
  | .readError :: rest, st =>
    processLoop cancelled tie uploadID rest
      { st with errorCount := st.errorCount + 1 }
  | .record fields :: rest, st =>
    let line := st.lineNumber + 1
    match parseTransaction fields line with
    | .error _ =>
      processLoop cancelled tie uploadID rest
        { st with lineNumber := line, errorCount := st.errorCount + 1 }
    | .ok tx =>
      let event : Event :=
        { id := uploadID ++ "-" ++ toString line,
          type := .reconciliation,
          payload := .reconciliation ⟨uploadID, tx, line⟩ }
      match st.bus.publish cancelled (tie line) event with
      | (.cancelled, bus') =>
        processLoop cancelled tie uploadID rest
          { st with bus := bus', lineNumber := line,
                    errorCount := st.errorCount + 1 }
      | (.ok, bus') =>
        processLoop cancelled tie uploadID rest
          { st with bus := bus', lineNumber := line,
                    successCount := st.successCount + 1 }

/--
CSVProcessor.ProcessStream: run the read loop, then finalize the upload
status; a failed final status update is logged and swallowed, and the
function always returns nil (`none`).
-/
def processStream (cancelled : Bool) (tie : Nat → Bool) (uploadID : String)
    (reads : List ReadResult) (bus : EventBusState) (store : MemoryStore) :
    LoopState × MemoryStore × Option DomainError :=
  let st := processLoop cancelled tie uploadID reads ⟨bus, 0, 0, 0⟩
  let newStatus : UploadStatus :=
    if 0 < st.errorCount ∧ st.successCount = 0 then .failed else .completed
  let store' :=
    match store.updateUploadStatus uploadID newStatus with
    | .ok s' => s'
    | .error _ => store
  (st, store', none)

/-! ## Spec-side formulations -/

/-- The signed contribution of one row: +amount for CREDIT, −amount for DEBIT. -/
def contribution (twl : TransactionWithLine) : Int :=
  match twl.transaction.type with
  | .credit => twl.transaction.amount
  | .debit => -twl.transaction.amount

/-- Σ over transactions with status SUCCESS of the signed amount. -/
def specBalance (txs : List TransactionWithLine) : Int :=
  ((txs.filter (fun twl => twl.transaction.status = .success)).map
    contribution).sum

theorem balanceStep_eq (acc : Int) (t : TransactionWithLine) :
    balanceStep acc t =
      acc + (if t.transaction.status = .success then contribution t else 0) := by
  by_cases hs : t.transaction.status = .success
  · cases hty : t.transaction.type
    · simp [balanceStep, contribution, hs, hty]
    · simp [balanceStep, contribution, hs, hty]
      ring_nf
  · simp [balanceStep, hs]

theorem foldl_balanceStep (txs : List TransactionWithLine) (acc : Int) :
    txs.foldl balanceStep acc = acc + specBalance txs := by
  induction txs generalizing acc with
  | nil => simp [specBalance]
  | cons t ts ih =>
    rw [List.foldl_cons, ih, balanceStep_eq]
    by_cases hs : t.transaction.status = .success
    · simp only [specBalance, List.filter_cons, hs, decide_True, if_pos,
        List.map_cons, List.sum_cons]
      ring_nf
    · simp [specBalance, List.filter_cons, hs]

/--
C1: for every upload id in the store, GetBalance returns the sum over the
SUCCESS transactions of +amount for CREDIT and −amount for DEBIT;
non-SUCCESS (FAILED or PENDING) rows contribute exactly 0; an empty list
yields 0; and GetBalance fails with UploadNotFound exactly when the
upload id is absent.
-/
theorem getBalance_spec (s : MemoryStore) (uploadID : String) :
    (mapGet s.uploads uploadID = none →
      s.getBalance uploadID = .error .uploadNotFound) ∧
    (∀ u, mapGet s.uploads uploadID = some u →
      s.getBalance uploadID =
        .ok (specBalance ((mapGet s.transactions uploadID).getD []))) ∧
    specBalance [] = 0 ∧
    (∀ txs twl,
      twl.transaction.status = .failed ∨ twl.transaction.status = .pending →
      specBalance (txs ++ [twl]) = specBalance txs) := by
  refine ⟨?_, ?_, rfl, ?_⟩
  · intro h
    simp [MemoryStore.getBalance, h]
  · intro u hu
    simp only [MemoryStore.getBalance, hu]
    match htx : mapGet s.transactions uploadID with
    | none => simp [specBalance]
    | some txs => simp [foldl_balanceStep]
  · intro txs twl h
    have hs : ¬ twl.transaction.status = .success := by
      rcases h with h | h <;> simp [h]
    simp [specBalance, List.filter_append, List.filter_cons, hs]

def balWitnessTxs : List TransactionWithLine :=
  [⟨⟨1674507884, "JANE DOE", .credit, 500000, .success, "salary"⟩, 2⟩,
   ⟨⟨1674507883, "JOHN DOE", .debit, 250000, .success, "restaurant"⟩, 1⟩,
   ⟨⟨1674507885, "BOB SMITH", .debit, 100000, .failed, "invalid"⟩, 3⟩,
   ⟨⟨1674507886, "ALICE WONDER", .credit, 300000, .pending, "pending"⟩, 4⟩]

def balWitnessStore : MemoryStore :=
  ⟨[("u", ⟨"u", .processing, 0, 0, false⟩)], [("u", balWitnessTxs)], ∅⟩

theorem getBalance_spec_witness :
    balWitnessStore.getBalance "u" = .ok 250000 ∧
    balWitnessStore.getBalance "v" = .error .uploadNotFound := by
  constructor
  · exact ((getBalance_spec balWitnessStore "u").2.1 _ rfl).trans (by decide)
  · exact (getBalance_spec balWitnessStore "v").1 rfl

/-! ## C5: CreateUpload -/

def c5Tx : Transaction := ⟨1674507883, "JOHN DOE", .credit, 5, .success, ""⟩

def c5Store : MemoryStore :=
  ⟨[("u", ⟨"u", .completed, 3, 0, true⟩)], [("u", [⟨c5Tx, 1⟩])], ∅⟩

def c5StoreAfter : MemoryStore :=
  ⟨[("u", ⟨"u", .processing, 0, 0, false⟩)], [("u", [])], ∅⟩

/--
C5 counterexample: the id "u" already exists in the store (with one
transaction), yet CreateUpload succeeds (returns no error) and resets the
existing upload and its transaction list instead of leaving them
unchanged.
-/
theorem createUpload_duplicate_counterexample :
    (mapGet c5Store.uploads "u").isSome = true ∧
    c5Store.createUpload "u" = .ok c5StoreAfter ∧
    c5StoreAfter ≠ c5Store ∧
    mapGet c5StoreAfter.transactions "u" = some [] := by decide

/--
C5 amended: CreateUpload(id) always succeeds, for fresh and duplicate ids
alike; it initializes (or, on a duplicate id, overwrites) the upload row
to status PROCESSING with processed_rows 0 and an empty transaction
list. It never fails, and a duplicate-id call resets the existing upload
and clears its stored transactions rather than leaving them unchanged.
-/
theorem createUpload_spec (s : MemoryStore) (uploadID : String) :
    s.createUpload uploadID =
      .ok { s with
            uploads := mapSet s.uploads uploadID
              ⟨uploadID, .processing, 0, 0, false⟩,
            transactions := mapSet s.transactions uploadID [] } ∧
    (∀ s', s.createUpload uploadID = .ok s' →
      mapGet s'.uploads uploadID = some ⟨uploadID, .processing, 0, 0, false⟩ ∧
      mapGet s'.transactions uploadID = some []) := by
  refine ⟨rfl, ?_⟩
  intro s' h
  have hs : s' = { s with
      uploads := mapSet s.uploads uploadID ⟨uploadID, .processing, 0, 0, false⟩,
      transactions := mapSet s.transactions uploadID [] } := by
    simpa [MemoryStore.createUpload] using h.symm
  subst hs
  exact ⟨mapGet_mapSet_self _ _ _, mapGet_mapSet_self _ _ _⟩

theorem createUpload_spec_witness :
    mapGet c5StoreAfter.uploads "u" = some ⟨"u", .processing, 0, 0, false⟩ ∧
    mapGet c5StoreAfter.transactions "u" = some [] :=
  (createUpload_spec c5Store "u").2 c5StoreAfter (by decide)

/-! ## C10: processed-event set -/

/--
C10: in the in-memory store, IsEventProcessed and MarkEventProcessed
never return an error; IsEventProcessed reports exactly membership in the
processed-event set, which is empty in a fresh store and untouched by the
other store operations (so it is false for an id that was never marked);
after MarkEventProcessed(id) a check returns true; and marking an
already-marked id leaves the entire store state unchanged.
-/
theorem eventProcessed_spec (s : MemoryStore) (eventID : String) :
    s.isEventProcessed eventID = .ok (eventID ∈ s.processedEvents) ∧
    newMemoryStore.isEventProcessed eventID = .ok false ∧
    (∃ s', s.markEventProcessed eventID = .ok s' ∧
      s'.isEventProcessed eventID = .ok true ∧
      s'.uploads = s.uploads ∧ s'.transactions = s.transactions) ∧
    (eventID ∈ s.processedEvents → s.markEventProcessed eventID = .ok s) ∧
    (∀ uploadID st tx n,
      (∀ s₁, s.createUpload uploadID = .ok s₁ →
        s₁.processedEvents = s.processedEvents) ∧
      (∀ s₁, s.updateUploadStatus uploadID st = .ok s₁ →
        s₁.processedEvents = s.processedEvents) ∧
      (∀ s₁, s.incrementProcessedRows uploadID = .ok s₁ →
        s₁.processedEvents = s.processedEvents) ∧
      (∀ s₁, s.addTransaction uploadID tx n = .ok s₁ →
        s₁.processedEvents = s.processedEvents)) := by
  refine ⟨rfl, ?_, ?_, ?_, ?_⟩
  · simp [MemoryStore.isEventProcessed, newMemoryStore]
  · refine ⟨_, rfl, ?_, rfl, rfl⟩
    simp [MemoryStore.isEventProcessed]
  · intro h
    show Except.ok { s with processedEvents := insert eventID s.processedEvents }
        = Except.ok s
    rw [Finset.insert_eq_self.mpr h]
  · intro uploadID st tx n
    refine ⟨?_, ?_, ?_, ?_⟩
    · intro s₁ h
      have hs : s₁ = { s with
          uploads := mapSet s.uploads uploadID
            ⟨uploadID, .processing, 0, 0, false⟩,
          transactions := mapSet s.transactions uploadID [] } := by
        simpa [MemoryStore.createUpload] using h.symm
      subst hs; rfl
    · intro s₁ h
      unfold MemoryStore.updateUploadStatus at h
      match hu : mapGet s.uploads uploadID with
      | none => rw [hu] at h; exact absurd h (by simp)
      | some u =>
        rw [hu] at h
        simp only [Except.ok.injEq] at h
        subst h; rfl
    · intro s₁ h
      unfold MemoryStore.incrementProcessedRows at h
      match hu : mapGet s.uploads uploadID with
      | none => rw [hu] at h; exact absurd h (by simp)
      | some u =>
        rw [hu] at h
        simp only [Except.ok.injEq] at h
        subst h; rfl
    · intro s₁ h
      unfold MemoryStore.addTransaction at h
      match hu : mapGet s.uploads uploadID with
      | none => rw [hu] at h; exact absurd h (by simp)
      | some u =>
        rw [hu] at h
        simp only [Except.ok.injEq] at h
        subst h; rfl

def c10Store : MemoryStore := ⟨[], [], {"e1"}⟩

theorem eventProcessed_spec_witness :
    c10Store.markEventProcessed "e1" = .ok c10Store :=
  (eventProcessed_spec c10Store "e1").2.2.2.1 (by decide)

/-! ## C3 and C4: GetIssues filtering and pagination -/

def toIssue (twl : TransactionWithLine) : IssueTransaction :=
  ⟨twl.transaction, twl.lineNumber⟩

/-- The filtered candidate list GetIssues builds for a given filter. -/
def issuesOf (s : MemoryStore) (uploadID : String)
    (f : Option TransactionStatus) : List IssueTransaction :=
  ((mapGet s.transactions uploadID).getD []).filterMap (issueFilterStep f)

/-- Spec-side candidate set with no filter: the FAILED ∪ PENDING rows. -/
def issueCandidates (txs : List TransactionWithLine) : List IssueTransaction :=
  (txs.filter (fun twl =>
    twl.transaction.status = .failed ∨ twl.transaction.status = .pending)).map
    toIssue

/-- Spec-side candidate set under a one-status filter. -/
def statusCandidates (txs : List TransactionWithLine)
    (st : TransactionStatus) : List IssueTransaction :=
  (txs.filter (fun twl => twl.transaction.status = st)).map toIssue

/-- Page `p` (1-based) of size `k` of a list, in insertion order. -/
def pageSlice {α : Type} (l : List α) (p k : Nat) : List α :=
  (l.drop ((p - 1) * k)).take k

/-- Number of pages of size k needed for n items: ⌈n/k⌉. -/
def numPages (n k : Nat) : Nat := (n + k - 1) / k

theorem filterStep_none (txs : List TransactionWithLine) :
    txs.filterMap (issueFilterStep none) = issueCandidates txs := by
  induction txs with
  | nil => rfl
  | cons t ts ih =>
    by_cases h : t.transaction.status = .failed ∨ t.transaction.status = .pending
    · simp [issueFilterStep, List.filterMap_cons, List.filter_cons,
        issueCandidates, h, toIssue] at ih ⊢
      exact ih
    · simp [issueFilterStep, List.filterMap_cons, List.filter_cons,
        issueCandidates, h, toIssue] at ih ⊢
      exact ih

theorem filterStep_some (st : TransactionStatus)
    (hst : st = .failed ∨ st = .pending) (txs : List TransactionWithLine) :
    txs.filterMap (issueFilterStep (some st)) = statusCandidates txs st := by
  induction txs with
  | nil => rfl
  | cons t ts ih =>
    by_cases h : t.transaction.status = st
    · simp [issueFilterStep, List.filterMap_cons, List.filter_cons,
        statusCandidates, h, toIssue] at ih ⊢
      rw [if_pos hst]
      simpa using ih
    · simp [issueFilterStep, List.filterMap_cons, List.filter_cons,
        statusCandidates, h, toIssue] at ih ⊢
      exact ih

theorem clampPage_ge_one (page : Int) : 1 ≤ clampPage page := by
  unfold clampPage; split <;> omega

theorem clampPerPage_ge_one (perPage : Int) : 1 ≤ clampPerPage perPage := by
  unfold clampPerPage; split <;> omega

/--
GetIssues on a present upload returns the clamped page slice of the
filtered candidate list together with its total length.
-/
theorem getIssues_eq (s : MemoryStore) (uploadID : String) (u : Upload)
    (f : Option TransactionStatus)
    (hu : mapGet s.uploads uploadID = some u) (page perPage : Int) :
    s.getIssues uploadID page perPage f =
      .ok (pageSlice (issuesOf s uploadID f) (clampPage page).toNat
             (clampPerPage perPage).toNat,
           (issuesOf s uploadID f).length) := by
  have hp1 : 1 ≤ clampPage page := clampPage_ge_one page
  have hk1 : 1 ≤ clampPerPage perPage := clampPerPage_ge_one perPage
  obtain ⟨pN, hPN⟩ : ∃ n : Nat, clampPage page = (n : Int) :=
    ⟨(clampPage page).toNat, (Int.toNat_of_nonneg (by omega)).symm⟩
  obtain ⟨kN, hKN⟩ : ∃ n : Nat, clampPerPage perPage = (n : Int) :=
    ⟨(clampPerPage perPage).toNat, (Int.toNat_of_nonneg (by omega)).symm⟩
  have hpN : 1 ≤ pN := by rw [hPN] at hp1; exact_mod_cast hp1
  have hkN : 1 ≤ kN := by rw [hKN] at hk1; exact_mod_cast hk1
  have htn : (clampPage page).toNat = pN := by
    rw [hPN]; exact Int.toNat_natCast pN
  have hkn : (clampPerPage perPage).toNat = kN := by
    rw [hKN]; exact Int.toNat_natCast kN
  rw [htn, hkn]
  match htx : mapGet s.transactions uploadID with
  | none =>
    simp [MemoryStore.getIssues, hu, htx, issuesOf, pageSlice]
  | some txs =>
    have hIss : issuesOf s uploadID f = txs.filterMap (issueFilterStep f) := by
      simp [issuesOf, htx]
    rw [hIss]
    simp only [MemoryStore.getIssues, hu, htx]
    set L := txs.filterMap (issueFilterStep f) with hL
    have hcast : (((pN - 1) * kN : Nat) : Int) =
        (clampPage page - 1) * clampPerPage perPage := by
      rw [hPN, hKN, Nat.cast_mul, Nat.cast_sub hpN, Nat.cast_one]
    have hsn : ((clampPage page - 1) * clampPerPage perPage).toNat
        = (pN - 1) * kN := by
      rw [← hcast, Int.toNat_natCast]
    unfold pageSlice
    split_ifs with h1 h2
    · have h1n : L.length ≤ (pN - 1) * kN := by
        rw [← hcast] at h1; exact_mod_cast h1
      rw [List.drop_eq_nil_of_le h1n, List.take_nil]
    · have h2n : L.length < (pN - 1) * kN + kN := by
        rw [← hcast, hKN] at h2
        exact_mod_cast h2
      rw [hsn, ← hcast, Int.toNat_sub]
      have e1 : (L.drop ((pN - 1) * kN)).take (L.length - (pN - 1) * kN)
          = L.drop ((pN - 1) * kN) := by
        rw [← List.length_drop, List.take_length]
      have e2 : (L.drop ((pN - 1) * kN)).take kN
          = L.drop ((pN - 1) * kN) :=
        List.take_of_length_le (by rw [List.length_drop]; omega)
      rw [e1, e2]
    · rw [hsn, add_sub_cancel_left, hkn]

theorem numPages_zero (k : Nat) (hk : 1 ≤ k) : numPages 0 k = 0 := by
  unfold numPages
  exact Nat.div_eq_of_lt (by omega)

theorem numPages_succ (n k : Nat) (hk : 1 ≤ k) (hn : 1 ≤ n) :
    numPages n k = numPages (n - k) k + 1 := by
  unfold numPages
  rcases le_or_lt n k with h | h
  · have e1 : n - k = 0 := by omega
    have e2 : n + k - 1 = (n - 1) + k := by omega
    rw [e1, e2, Nat.add_div_right _ (by omega)]
    have e3 : (n - 1) / k = 0 := Nat.div_eq_of_lt (by omega)
    have e4 : (0 + k - 1) / k = 0 := Nat.div_eq_of_lt (by omega)
    rw [e3, e4]
  · have e2 : n + k - 1 = ((n - k - 1) + k) + k := by omega
    have e3 : (n - k) + k - 1 = (n - k - 1) + k := by omega
    rw [e2, e3, Nat.add_div_right _ (by omega), Nat.add_div_right _ (by omega)]

theorem flatten_pageSlice {α : Type} (k : Nat) (hk : 1 ≤ k) :
    ∀ (n : Nat) (l : List α), l.length ≤ n →
      ((List.range (numPages l.length k)).map
        (fun i => pageSlice l (i + 1) k)).flatten = l := by
  intro n
  induction n with
  | zero =>
    intro l hl
    have hnil : l = [] := List.length_eq_zero.mp (by omega)
    subst hnil
    simp [numPages_zero k hk]
  | succ n ih =>
    intro l hl
    cases l with
    | nil => simp [numPages_zero k hk]
    | cons a t =>
      have hlen : 1 ≤ (a :: t).length := by simp
      rw [numPages_succ _ _ hk hlen, List.range_succ_eq_map, List.map_cons,
        List.flatten_cons, List.map_map]
      have hhead : pageSlice (a :: t) (0 + 1) k = (a :: t).take k := by
        unfold pageSlice
        simp
      have hfun : ((fun i => pageSlice (a :: t) (i + 1) k) ∘ Nat.succ)
          = fun i => pageSlice ((a :: t).drop k) (i + 1) k := by
        funext i
        show pageSlice (a :: t) (i + 1 + 1) k = pageSlice ((a :: t).drop k) (i + 1) k
        unfold pageSlice
        rw [List.drop_drop]
        congr 1
        simp only [Nat.add_sub_cancel]
        ring_nf
      have hdroplen : ((a :: t).drop k).length = (a :: t).length - k :=
        List.length_drop _ _
      rw [hhead, hfun, ← hdroplen,
        ih ((a :: t).drop k) (by rw [hdroplen]; simp at hl ⊢; omega),
        List.take_append_drop]

/--
C3: for a stored upload, GetIssues with no status filter returns a page
of exactly the stored transactions whose status is FAILED or PENDING
(each with its line number), and with a FAILED or PENDING filter a page
of exactly those of that one status; the returned total is the size of
the filtered candidate set, independent of page and perPage.
-/
theorem getIssues_issue_set (s : MemoryStore) (uploadID : String) (u : Upload)
    (hu : mapGet s.uploads uploadID = some u) (page perPage : Int) :
    (s.getIssues uploadID page perPage none =
      .ok (pageSlice (issueCandidates ((mapGet s.transactions uploadID).getD []))
             (clampPage page).toNat (clampPerPage perPage).toNat,
           (issueCandidates ((mapGet s.transactions uploadID).getD [])).length)) ∧
    (∀ st : TransactionStatus, st = .failed ∨ st = .pending →
      s.getIssues uploadID page perPage (some st) =
        .ok (pageSlice (statusCandidates ((mapGet s.transactions uploadID).getD []) st)
               (clampPage page).toNat (clampPerPage perPage).toNat,
             (statusCandidates ((mapGet s.transactions uploadID).getD []) st).length)) := by
  constructor
  · have h := getIssues_eq s uploadID u none hu page perPage
    rwa [show issuesOf s uploadID none
        = issueCandidates ((mapGet s.transactions uploadID).getD [])
      from filterStep_none _] at h
  · intro st hst
    have h := getIssues_eq s uploadID u (some st) hu page perPage
    rwa [show issuesOf s uploadID (some st)
        = statusCandidates ((mapGet s.transactions uploadID).getD []) st
      from filterStep_some st hst _] at h

def c3Store : MemoryStore :=
  ⟨[("u", ⟨"u", .completed, 4, 0, true⟩)], [("u", balWitnessTxs)], ∅⟩

theorem getIssues_issue_set_witness :
    c3Store.getIssues "u" 1 10 none =
      .ok ([⟨⟨1674507885, "BOB SMITH", .debit, 100000, .failed, "invalid"⟩, 3⟩,
            ⟨⟨1674507886, "ALICE WONDER", .credit, 300000, .pending, "pending"⟩, 4⟩], 2) ∧
    c3Store.getIssues "u" 1 10 (some .failed) =
      .ok ([⟨⟨1674507885, "BOB SMITH", .debit, 100000, .failed, "invalid"⟩, 3⟩], 1) := by
  constructor
  · exact ((getIssues_issue_set c3Store "u" _ rfl 1 10).1).trans (by decide)
  · exact ((getIssues_issue_set c3Store "u" _ rfl 1 10).2 .failed
      (Or.inl rfl)).trans (by decide)

/--
C4: for a stored upload and perPage k ≥ 1, page p ≥ 1 of GetIssues is the
insertion-order slice of the filtered list starting at index (p−1)·k;
a page with (p−1)·k ≥ total has an empty item list but the same total;
and the pages 1…⌈total/k⌉ concatenate to the full filtered list, in
order, without duplicates or gaps.
-/
theorem getIssues_pagination (s : MemoryStore) (uploadID : String)
    (u : Upload) (f : Option TransactionStatus)
    (hu : mapGet s.uploads uploadID = some u)
    (p k : Int) (hp : 1 ≤ p) (hk : 1 ≤ k) :
    (s.getIssues uploadID p k f =
      .ok (pageSlice (issuesOf s uploadID f) p.toNat k.toNat,
           (issuesOf s uploadID f).length)) ∧
    ((issuesOf s uploadID f).length ≤ (p.toNat - 1) * k.toNat →
      s.getIssues uploadID p k f = .ok ([], (issuesOf s uploadID f).length)) ∧
    ((List.range (numPages (issuesOf s uploadID f).length k.toNat)).map
        (fun i => pageSlice (issuesOf s uploadID f) (i + 1) k.toNat)).flatten
      = issuesOf s uploadID f := by
  have hcp : clampPage p = p := by
    unfold clampPage
    rw [if_neg (by omega)]
  have hck : clampPerPage k = k := by
    unfold clampPerPage
    rw [if_neg (by omega)]
  have h1 := getIssues_eq s uploadID u f hu p k
  rw [hcp, hck] at h1
  refine ⟨h1, ?_, ?_⟩
  · intro hle
    rw [h1]
    unfold pageSlice
    rw [List.drop_eq_nil_of_le hle, List.take_nil]
  · exact flatten_pageSlice k.toNat (by omega) _ _ (le_refl _)

def c4Txs : List TransactionWithLine :=
  [⟨⟨1, "USER1", .debit, 100, .failed, ""⟩, 1⟩,
   ⟨⟨2, "USER2", .debit, 200, .failed, ""⟩, 2⟩,
   ⟨⟨3, "USER3", .debit, 300, .failed, ""⟩, 3⟩,
   ⟨⟨4, "USER4", .debit, 400, .failed, ""⟩, 4⟩,
   ⟨⟨5, "USER5", .debit, 500, .failed, ""⟩, 5⟩]

def c4Store : MemoryStore :=
  ⟨[("u", ⟨"u", .completed, 5, 0, true⟩)], [("u", c4Txs)], ∅⟩

theorem getIssues_pagination_witness :
    c4Store.getIssues "u" 3 2 none =
      .ok ([⟨⟨5, "USER5", .debit, 500, .failed, ""⟩, 5⟩], 5) ∧
    c4Store.getIssues "u" 4 2 none = .ok ([], 5) := by
  constructor
  · exact ((getIssues_pagination c4Store "u" _ none rfl 3 2 (by omega)
      (by omega)).1).trans (by decide)
  · exact ((getIssues_pagination c4Store "u" _ none rfl 4 2 (by omega)
      (by omega)).2.1 (by decide)).trans (by decide)

/-! ## C2: consumer idempotency -/

/--
C2: an event whose id is already in the processed-event set is consumed
as a success with no mutation at all; and for an event with a valid
payload on an existing upload, consuming it N ≥ 1 times commits exactly
one AddTransaction (one appended row) and exactly one processed_rows
increment, with every repetition returning the same state as the first
consume.
-/
theorem consume_idempotent (s : MemoryStore) (e : Event)
    (p : ReconciliationEvent) (u : Upload)
    (hpay : e.payload = .reconciliation p)
    (hu : mapGet s.uploads p.uploadID = some u) :
    (∀ s₀ : MemoryStore, e.id ∈ s₀.processedEvents → consume s₀ e = .ok s₀) ∧
    (e.id ∉ s.processedEvents → ∃ s',
      consume s e = .ok s' ∧
      (∀ n : Nat, consumeIter (n + 1) s e = .ok s') ∧
      mapGet s'.transactions p.uploadID =
        some (((mapGet s.transactions p.uploadID).getD []) ++
          [⟨p.transaction, p.lineNumber⟩]) ∧
      mapGet s'.uploads p.uploadID =
        some { u with processedRows := u.processedRows + 1 } ∧
      e.id ∈ s'.processedEvents) := by
  have hpart1 : ∀ s₀ : MemoryStore, e.id ∈ s₀.processedEvents →
      consume s₀ e = .ok s₀ := by
    intro s₀ h
    simp [consume, MemoryStore.isEventProcessed, decide_eq_true h]
  refine ⟨hpart1, ?_⟩
  intro hnm
  have hdec : decide (e.id ∈ s.processedEvents) = false := decide_eq_false hnm
  set sFinal : MemoryStore :=
    { s with
      uploads := mapSet s.uploads p.uploadID
        { u with processedRows := u.processedRows + 1 },
      transactions := mapSet s.transactions p.uploadID
        (((mapGet s.transactions p.uploadID).getD []) ++
          [⟨p.transaction, p.lineNumber⟩]),
      processedEvents := insert e.id s.processedEvents } with hsF
  have hcons : consume s e = .ok sFinal := by
    simp only [consume, MemoryStore.isEventProcessed, hdec, hpay,
      MemoryStore.addTransaction, hu, MemoryStore.markEventProcessed,
      MemoryStore.incrementProcessedRows, hsF]
  have hmemF : e.id ∈ sFinal.processedEvents := by
    rw [hsF]
    exact Finset.mem_insert_self _ _
  have hiterStay : ∀ (m : Nat) (s₀ : MemoryStore),
      e.id ∈ s₀.processedEvents → consumeIter m s₀ e = .ok s₀ := by
    intro m
    induction m with
    | zero => intro s₀ h; rfl
    | succ m ih =>
      intro s₀ h
      simp only [consumeIter, hpart1 s₀ h]
      exact ih s₀ h
  refine ⟨sFinal, hcons, ?_, ?_, ?_, hmemF⟩
  · intro n
    simp only [consumeIter, hcons]
    exact hiterStay n sFinal hmemF
  · rw [hsF]
    exact mapGet_mapSet_self _ _ _
  · rw [hsF]
    exact mapGet_mapSet_self _ _ _

def c2Tx : Transaction := ⟨1674507883, "JOHN DOE", .debit, 250000, .success, "r"⟩

def c2Payload : ReconciliationEvent := ⟨"u", c2Tx, 1⟩

def c2Event : Event := ⟨"u-1", .reconciliation, .reconciliation c2Payload⟩

def c2Upload : Upload := ⟨"u", .processing, 0, 0, false⟩

def c2Store : MemoryStore := ⟨[("u", c2Upload)], [("u", [])], ∅⟩

def c2StoreAfter : MemoryStore :=
  ⟨[("u", ⟨"u", .processing, 1, 0, false⟩)], [("u", [⟨c2Tx, 1⟩])], {"u-1"}⟩

theorem consume_idempotent_witness :
    consume c2Store c2Event = .ok c2StoreAfter ∧
    consumeIter 3 c2Store c2Event = .ok c2StoreAfter := by
  obtain ⟨s', h1, h2, h3, h4, h5⟩ :=
    (consume_idempotent c2Store c2Event c2Payload c2Upload rfl rfl).2
      (by decide)
  have hs : s' = c2StoreAfter :=
    Except.ok.inj (h1.symm.trans (by decide))
  exact ⟨hs ▸ h1, hs ▸ h2 2⟩

/-! ## C6: retry.Do -/

theorem calculateBackoff_eq_min (a b m : Nat) :
    calculateBackoff a b m = min (b * 2 ^ a) m := by
  unfold calculateBackoff
  dsimp only
  split <;> omega

theorem retryGo_ok {ε : Type} (op : Nat → Option ε) (cancel : Nat → Bool)
    (base maxD : Nat) :
    ∀ (i attempt r : Nat) (lastErr : Option ε) (slept : List Nat),
      i < r →
      op (attempt + i) = none →
      (∀ j, j < i → (op (attempt + j)).isSome) →
      (∀ j, j < i → cancel (attempt + j) = false) →
      retryGo op cancel base maxD attempt r lastErr slept =
        (.ok, slept ++ (List.range' attempt i).map
          (fun j => calculateBackoff j base maxD)) := by
  intro i
  induction i with
  | zero =>
    intro attempt r lastErr slept hir h0 _ _
    obtain ⟨r', rfl⟩ : ∃ r', r = r' + 1 := ⟨r - 1, by omega⟩
    rw [Nat.add_zero] at h0
    simp [retryGo, h0]
  | succ i ih =>
    intro attempt r lastErr slept hir hsucc hfail hcanc
    obtain ⟨r', rfl⟩ : ∃ r', r = r' + 1 := ⟨r - 1, by omega⟩
    have hs0 : (op attempt).isSome := by
      have h := hfail 0 (Nat.succ_pos i)
      simpa using h
    obtain ⟨e, he⟩ := Option.isSome_iff_exists.mp hs0
    have hr' : ¬ r' = 0 := by omega
    have hc0 : cancel attempt = false := by
      have h := hcanc 0 (Nat.succ_pos i)
      simpa using h
    rw [retryGo, he]
    simp only [hr', if_false, hc0, Bool.false_eq_true, reduceIte]
    rw [ih (attempt + 1) r' (some e) (slept ++ [calculateBackoff attempt base maxD])
      (by omega)
      (by have h : attempt + 1 + i = attempt + (i + 1) := by omega
          rw [h]; exact hsucc)
      (by intro j hj
          have h : attempt + 1 + j = attempt + (j + 1) := by omega
          rw [h]; exact hfail (j + 1) (by omega))
      (by intro j hj
          have h : attempt + 1 + j = attempt + (j + 1) := by omega
          rw [h]; exact hcanc (j + 1) (by omega))]
    rw [List.range'_succ, List.map_cons, List.append_assoc]
    rfl

theorem retryGo_exhaust {ε : Type} (op : Nat → Option ε) (cancel : Nat → Bool)
    (base maxD : Nat) :
    ∀ (r attempt : Nat) (lastErr : Option ε) (slept : List Nat) (eLast : ε),
      1 ≤ r →
      (∀ j, j < r → (op (attempt + j)).isSome) →
      (∀ j, j + 1 < r → cancel (attempt + j) = false) →
      op (attempt + (r - 1)) = some eLast →
      retryGo op cancel base maxD attempt r lastErr slept =
        (.maxRetriesExceeded eLast,
         slept ++ (List.range' attempt (r - 1)).map
           (fun j => calculateBackoff j base maxD)) := by
  intro r
  induction r with
  | zero => intro attempt lastErr slept eLast h1; omega
  | succ r ih =>
    intro attempt lastErr slept eLast _ hfail hcanc hlast
    match r with
    | 0 =>
      rw [Nat.add_zero] at hlast ⊢
      simp [retryGo, hlast]
    | r₁ + 1 =>
      have hs0 : (op attempt).isSome := by
        have h := hfail 0 (by omega)
        simpa using h
      obtain ⟨e, he⟩ := Option.isSome_iff_exists.mp hs0
      have hc0 : cancel attempt = false := by
        have h := hcanc 0 (by omega)
        simpa using h
      rw [retryGo, he]
      simp only [Nat.succ_ne_zero, if_false, hc0, Bool.false_eq_true, reduceIte]
      rw [ih (attempt + 1) (some e) (slept ++ [calculateBackoff attempt base maxD])
        eLast (by omega)
        (by intro j hj
            have h : attempt + 1 + j = attempt + (j + 1) := by omega
            rw [h]; exact hfail (j + 1) (by omega))
        (by intro j hj
            have h : attempt + 1 + j = attempt + (j + 1) := by omega
            rw [h]; exact hcanc (j + 1) (by omega))
        (by have h : attempt + 1 + (r₁ + 1 - 1) = attempt + (r₁ + 1 + 1 - 1) := by
              omega
            rw [h]; exact hlast)]
      have hr : r₁ + 1 + 1 - 1 = (r₁ + 1 - 1) + 1 := by omega
      rw [hr, List.range'_succ, List.map_cons, List.append_assoc]
      rfl

theorem retryGo_cancelled {ε : Type} (op : Nat → Option ε)
    (cancel : Nat → Bool) (base maxD : Nat) :
    ∀ (i attempt r : Nat) (lastErr : Option ε) (slept : List Nat),
      i + 1 < r →
      (∀ j, j ≤ i → (op (attempt + j)).isSome) →
      (∀ j, j < i → cancel (attempt + j) = false) →
      cancel (attempt + i) = true →
      retryGo op cancel base maxD attempt r lastErr slept =
        (.cancelled, slept ++ (List.range' attempt i).map
          (fun j => calculateBackoff j base maxD)) := by
  intro i
  induction i with
  | zero =>
    intro attempt r lastErr slept hir hsome _ hcan
    obtain ⟨r', rfl⟩ : ∃ r', r = r' + 1 := ⟨r - 1, by omega⟩
    have hs0 : (op attempt).isSome := by
      have h := hsome 0 (Nat.le_refl 0)
      simpa using h
    obtain ⟨e, he⟩ := Option.isSome_iff_exists.mp hs0
    have hr' : ¬ r' = 0 := by omega
    rw [Nat.add_zero] at hcan
    rw [retryGo, he]
    simp [hr', hcan]
  | succ i ih =>
    intro attempt r lastErr slept hir hsome hcanc hcan
    obtain ⟨r', rfl⟩ : ∃ r', r = r' + 1 := ⟨r - 1, by omega⟩
    have hs0 : (op attempt).isSome := by
      have h := hsome 0 (Nat.zero_le _)
      simpa using h
    obtain ⟨e, he⟩ := Option.isSome_iff_exists.mp hs0
    have hr' : ¬ r' = 0 := by omega
    have hc0 : cancel attempt = false := by
      have h := hcanc 0 (Nat.succ_pos i)
      simpa using h
    rw [retryGo, he]
    simp only [hr', if_false, hc0, Bool.false_eq_true, reduceIte]
    rw [ih (attempt + 1) r' (some e) (slept ++ [calculateBackoff attempt base maxD])
      (by omega)
      (by intro j hj
          have h : attempt + 1 + j = attempt + (j + 1) := by omega
          rw [h]; exact hsome (j + 1) (by omega))
      (by intro j hj
          have h : attempt + 1 + j = attempt + (j + 1) := by omega
          rw [h]; exact hcanc (j + 1) (by omega))
      (by have h : attempt + 1 + i = attempt + (i + 1) := by omega
          rw [h]; exact hcan)]
    rw [List.range'_succ, List.map_cons, List.append_assoc]
    rfl

/--
C6: retry.Do with configuration {maxAttempts, baseDelay, maxDelay}
(defaults {5, 1s, 30s} in nanoseconds) returns success on the first
attempt that succeeds, sleeping min(baseDelay·2^i, maxDelay) after each
earlier failing attempt i; if every attempt fails it returns the
max-retries-exceeded error carrying the last attempt's error; and if the
cancellation token fires during a backoff sleep it returns the
cancellation error.
-/
theorem retryDo_spec {ε : Type} (op : Nat → Option ε) (cancel : Nat → Bool)
    (cfg : RetryConfig) :
    defaultRetryConfig = ⟨5, 1000000000, 30000000000⟩ ∧
    (∀ i, i < cfg.maxAttempts → op i = none →
      (∀ j, j < i → (op j).isSome) → (∀ j, j < i → cancel j = false) →
      retryDo op cancel cfg =
        (.ok, (List.range i).map
          (fun j => min (cfg.baseDelay * 2 ^ j) cfg.maxDelay))) ∧
    (∀ eLast, 1 ≤ cfg.maxAttempts →
      (∀ j, j < cfg.maxAttempts → (op j).isSome) →
      (∀ j, j + 1 < cfg.maxAttempts → cancel j = false) →
      op (cfg.maxAttempts - 1) = some eLast →
      retryDo op cancel cfg =
        (.maxRetriesExceeded eLast,
         (List.range (cfg.maxAttempts - 1)).map
           (fun j => min (cfg.baseDelay * 2 ^ j) cfg.maxDelay))) ∧
    (∀ i, i + 1 < cfg.maxAttempts →
      (∀ j, j ≤ i → (op j).isSome) → (∀ j, j < i → cancel j = false) →
      cancel i = true →
      retryDo op cancel cfg =
        (.cancelled, (List.range i).map
          (fun j => min (cfg.baseDelay * 2 ^ j) cfg.maxDelay))) := by
  refine ⟨rfl, ?_, ?_, ?_⟩
  · intro i hi h0 hfail hcanc
    unfold retryDo
    rw [retryGo_ok op cancel cfg.baseDelay cfg.maxDelay i 0 cfg.maxAttempts
      none [] hi (by simpa using h0)
      (by intro j hj; simpa using hfail j hj)
      (by intro j hj; simpa using hcanc j hj)]
    rw [List.range_eq_range']
    simp [calculateBackoff_eq_min]
  · intro eLast h1 hfail hcanc hlast
    unfold retryDo
    rw [retryGo_exhaust op cancel cfg.baseDelay cfg.maxDelay cfg.maxAttempts 0
      none [] eLast h1
      (by intro j hj; simpa using hfail j hj)
      (by intro j hj; simpa using hcanc j hj)
      (by simpa using hlast)]
    rw [List.range_eq_range']
    simp [calculateBackoff_eq_min]
  · intro i hi hsome hcanc hcan
    unfold retryDo
    rw [retryGo_cancelled op cancel cfg.baseDelay cfg.maxDelay i 0
      cfg.maxAttempts none [] hi
      (by intro j hj; simpa using hsome j hj)
      (by intro j hj; simpa using hcanc j hj)
      (by simpa using hcan)]
    rw [List.range_eq_range']
    simp [calculateBackoff_eq_min]

theorem retryDo_spec_witness :
    retryDo (fun n => if n = 2 then none else some 0) (fun _ => false)
      defaultRetryConfig = (.ok, [1000000000, 2000000000]) := by
  have h := (retryDo_spec (fun n => if n = 2 then none else some 0)
    (fun _ => false) defaultRetryConfig).2.1 2 (by decide) (by decide)
    (by decide) (by decide)
  exact h.trans (by decide)

/-! ## C7: Publish -/

def c7Chan : Channel := ⟨1, []⟩

def c7Bus : EventBusState := ⟨[(.reconciliation, c7Chan)]⟩

def c7Event : Event := ⟨"e1", .reconciliation, .other⟩

/--
C7 counterexample: the queue for the event type exists and has room, yet
with an already-cancelled context the Go select statement may take the
Done case (tie-break false) and Publish returns the cancellation error
without enqueueing, contradicting the claim that a queue with room
always means enqueue-and-success.
-/
theorem publish_room_cancelled_counterexample :
    mapGet c7Bus.channels c7Event.type = some c7Chan ∧
    c7Chan.buf.length < c7Chan.cap ∧
    c7Bus.publish true false c7Event = (.cancelled, c7Bus) := by decide

/--
C7 amended: Publish never blocks; with no queue for the event type it is
a no-op success; with room and a live context it enqueues and returns
success; with room and an already-cancelled context the select tie-break
decides between enqueue-with-success and the cancellation error; with a
full queue it returns the cancellation error when the context is already
cancelled and otherwise drops the event and returns success.
-/
theorem publish_spec (bus : EventBusState) (c t : Bool) (e : Event) :
    (mapGet bus.channels e.type = none → bus.publish c t e = (.ok, bus)) ∧
    (∀ ch, mapGet bus.channels e.type = some ch →
      (ch.buf.length < ch.cap → c = false →
        bus.publish c t e = (.ok, enqueueEvent bus e ch)) ∧
      (ch.buf.length < ch.cap → c = true → t = true →
        bus.publish c t e = (.ok, enqueueEvent bus e ch)) ∧
      (ch.buf.length < ch.cap → c = true → t = false →
        bus.publish c t e = (.cancelled, bus)) ∧
      (¬ ch.buf.length < ch.cap → c = true →
        bus.publish c t e = (.cancelled, bus)) ∧
      (¬ ch.buf.length < ch.cap → c = false →
        bus.publish c t e = (.ok, bus))) := by
  constructor
  · intro h
    simp [EventBusState.publish, h]
  · intro ch hch
    refine ⟨?_, ?_, ?_, ?_, ?_⟩
    · intro hroom hc
      simp [EventBusState.publish, hch, hroom, hc]
    · intro hroom hc ht
      simp [EventBusState.publish, hch, hroom, hc, ht]
    · intro hroom hc ht
      simp [EventBusState.publish, hch, hroom, hc, ht]
    · intro hfull hc
      simp [EventBusState.publish, hch, hfull, hc]
    · intro hfull hc
      simp [EventBusState.publish, hch, hfull, hc]

theorem publish_spec_witness :
    c7Bus.publish false false c7Event = (.ok, enqueueEvent c7Bus c7Event c7Chan) :=
  ((publish_spec c7Bus false false c7Event).2 c7Chan (by decide)).1
    (by decide) rfl

/-! ## C8: ProcessStream -/

/-- The finalized upload row written by UpdateUploadStatus for a
terminal status. -/
def finalizeUpload (u : Upload) (st : UploadStatus) : Upload :=
  { u with status := st, completedAtSet := true }

/-- The store after UpdateUploadStatus writes a terminal status for an
existing upload. -/
def finalizeStore (store : MemoryStore) (uploadID : String) (u : Upload)
    (st : UploadStatus) : MemoryStore :=
  { store with uploads := mapSet store.uploads uploadID (finalizeUpload u st) }

/--
C8: ProcessStream always returns nil, and after the read loop it sets
the upload status to FAILED exactly when errorCount > 0 and
successCount = 0, and to COMPLETED in every other case (including an
empty stream); either way CompletedAt is set.
-/
theorem processStream_spec (cancelled : Bool) (tie : Nat → Bool)
    (uploadID : String) (reads : List ReadResult) (bus : EventBusState)
    (store : MemoryStore) (u : Upload)
    (hu : mapGet store.uploads uploadID = some u) :
    (processStream cancelled tie uploadID reads bus store).2.2 = none ∧
    mapGet (processStream cancelled tie uploadID reads bus store).2.1.uploads
        uploadID =
      some { u with
             status :=
               if 0 < (processLoop cancelled tie uploadID reads
                     ⟨bus, 0, 0, 0⟩).errorCount ∧
                   (processLoop cancelled tie uploadID reads
                     ⟨bus, 0, 0, 0⟩).successCount = 0
               then .failed else .completed,
             completedAtSet := true } := by
  refine ⟨rfl, ?_⟩
  simp only [processStream]
  by_cases hP : 0 < (processLoop cancelled tie uploadID reads
      ⟨bus, 0, 0, 0⟩).errorCount ∧
    (processLoop cancelled tie uploadID reads ⟨bus, 0, 0, 0⟩).successCount = 0
  · rw [if_pos hP]
    have hupd : store.updateUploadStatus uploadID .failed =
        .ok (finalizeStore store uploadID u .failed) := by
      simp [MemoryStore.updateUploadStatus, hu, finalizeStore, finalizeUpload]
    rw [hupd]
    exact mapGet_mapSet_self _ _ _
  · rw [if_neg hP]
    have hupd : store.updateUploadStatus uploadID .completed =
        .ok (finalizeStore store uploadID u .completed) := by
      simp [MemoryStore.updateUploadStatus, hu, finalizeStore, finalizeUpload]
    rw [hupd]
    exact mapGet_mapSet_self _ _ _

def c8Store : MemoryStore :=
  ⟨[("u", ⟨"u", .processing, 0, 0, false⟩)], [("u", [])], ∅⟩

def c8Reads : List ReadResult :=
  [.record ["1674507883", "JOHN DOE", "DEBIT", "250000", "SUCCESS", "food"],
   .readError]

theorem processStream_spec_witness :
    (processStream false (fun _ => false) "u" c8Reads ⟨[]⟩ c8Store).2.2
      = none ∧
    mapGet (processStream false (fun _ => false) "u" c8Reads ⟨[]⟩
        c8Store).2.1.uploads "u" = some ⟨"u", .completed, 0, 0, true⟩ := by
  have h := processStream_spec false (fun _ => false) "u" c8Reads ⟨[]⟩
    c8Store ⟨"u", .processing, 0, 0, false⟩ rfl
  exact ⟨h.1, h.2.trans (by decide)⟩

/-! ## C9: parser and negative amounts -/

/--
C9 counterexample: a record whose amount field parses as the negative
int64 −5 is not rejected; parseTransaction accepts it and produces a
transaction with amount −5 < 0.
-/
theorem parseTransaction_negative_counterexample :
    parseTransaction ["1674507883", "JOHN DOE", "CREDIT", "-5", "SUCCESS", "x"]
        1 = .ok ⟨1674507883, "JOHN DOE", .credit, -5, .success, "x"⟩ ∧
    (-5 : Int) < 0 := by decide

theorem rangeIf_some (w v : Int)
    (h : (if w < -(2 ^ 63) ∨ (2 ^ 63 : Int) ≤ w then none else some w)
      = some v) :
    -(2 ^ 63) ≤ v ∧ v < 2 ^ 63 := by
  split at h
  · exact absurd h (by simp)
  · rename_i hnot
    obtain rfl := Option.some.inj h
    push_neg at hnot
    exact hnot

theorem parseInt64Digits_range (neg : Bool) (ds : List Char) (v : Int)
    (h : parseInt64Digits neg ds = some v) :
    -(2 ^ 63) ≤ v ∧ v < 2 ^ 63 := by
  unfold parseInt64Digits at h
  split at h
  · exact absurd h (by simp)
  · split at h
    · exact absurd h (by simp)
    · dsimp only at h
      split at h
      · exact rangeIf_some _ _ h
      · exact rangeIf_some _ _ h

theorem parseInt64_range (s : String) (v : Int) (h : parseInt64 s = some v) :
    -(2 ^ 63) ≤ v ∧ v < 2 ^ 63 := by
  unfold parseInt64 at h
  split at h
  · exact absurd h (by simp)
  · split at h
    · exact parseInt64Digits_range _ _ _ h
    · split at h
      · exact parseInt64Digits_range _ _ _ h
      · exact parseInt64Digits_range _ _ _ h

/--
C9 amended: the parser enforces only the int64 range on the amount
field, not non-negativity: every transaction it produces has
−2^63 ≤ amount < 2^63 and its amount is exactly the parsed decimal
value of field 3 (negative values included, as the counterexample
shows).
-/
theorem parseTransaction_amount_spec (record : List String) (n : Nat)
    (tx : Transaction) (h : parseTransaction record n = .ok tx) :
    (-(2 ^ 63) ≤ tx.amount ∧ tx.amount < 2 ^ 63) ∧
    ∃ f3, record.get? 3 = some f3 ∧
      parseInt64 (goTrim f3) = some tx.amount := by
  rcases record with _ | ⟨f0, record⟩
  · exact absurd h (by simp [parseTransaction])
  rcases record with _ | ⟨f1, record⟩
  · exact absurd h (by simp [parseTransaction])
  rcases record with _ | ⟨f2, record⟩
  · exact absurd h (by simp [parseTransaction])
  rcases record with _ | ⟨f3, record⟩
  · exact absurd h (by simp [parseTransaction])
  rcases record with _ | ⟨f4, record⟩
  · exact absurd h (by simp [parseTransaction])
  rcases record with _ | ⟨f5, record⟩
  · exact absurd h (by simp [parseTransaction])
  rcases record with _ | ⟨f6, record⟩
  case cons.cons.cons.cons.cons.cons.cons =>
    exact absurd h (by simp [parseTransaction])
  simp only [parseTransaction] at h
  cases hts : parseInt64 (goTrim f0) with
  | none => simp only [hts] at h; exact absurd h (by simp)
  | some ts =>
    simp only [hts] at h
    cases ham : parseInt64 (goTrim f3) with
    | none => simp only [ham] at h; exact absurd h (by simp)
    | some am =>
      simp only [ham] at h
      split at h
      · split at h
        · obtain rfl := Except.ok.inj h
          exact ⟨parseInt64_range _ _ ham, f3, rfl, ham⟩
        · exact absurd h (by simp)
      · exact absurd h (by simp)

def c9Record : List String := ["1674507883", "J", "CREDIT", "-7", "SUCCESS", "d"]

def c9Tx : Transaction := ⟨1674507883, "J", .credit, -7, .success, "d"⟩

theorem parseTransaction_amount_spec_witness :
    (-(2 ^ 63) ≤ c9Tx.amount ∧ c9Tx.amount < 2 ^ 63) ∧
    ∃ f3, c9Record.get? 3 = some f3 ∧
      parseInt64 (goTrim f3) = some c9Tx.amount :=
  parseTransaction_amount_spec c9Record 2 c9Tx (by decide)

end FlipTest
